import Mathlib

/-!
Verification development for the QCFractal storage-socket SQL model
(`src/qcfractal/storage_sockets/sql_models.py`).

The file embeds, as executable Lean definitions:
  * the generic ORM helpers `Base.to_dict` and `Base.update_many_to_many`;
  * the schema facts declared in the module (column lists of the
    association tables, unique constraints, cascade rules);
  * the task/service/base-result lifecycle operations.  Where the
    operation itself lives outside the inspected module (storage-socket
    layer) and only its column declarations are in the module, the
    operation is modelled from the specification and marked as such in
    its doc comment.
-/

namespace QCFractal

/-- The `db_related_fields` class attribute of the declarative `Base`:
fields that `to_dict` always strips. -/
def db_related_fields : List String := ["result_type"]

/-- `dict.pop(key, None)`: remove every binding of `key` from an
attribute dictionary (modelled as an association list). -/
def dictPop {V : Type} (d : List (String × V)) (key : String) : List (String × V) :=
  d.filter (fun p => p.1 ≠ key)

/-- Embedding of `Base.to_dict(self, with_id=True, exclude=None,
no_child_obj=True)`.  `d` is `self.__dict__`.  The method copies the
dictionary, collects the keys to delete (`_sa_instance_state`, the
`db_related_fields`, `id` when `with_id` is false, the `exclude` list,
and every key of `self.__dict__` ending in `_obj` when `no_child_obj`),
and pops each of them. -/
def to_dict {V : Type} (d : List (String × V)) (with_id : Bool := true)
    (exclude : Option (List String) := none) (no_child_obj : Bool := true) :
    List (String × V) :=
  let tobe1 : List String := ["_sa_instance_state"] ++ db_related_fields
  let tobe2 : List String := if with_id then tobe1 else tobe1 ++ ["id"]
  let tobe3 : List String :=
    match exclude with
    | none => tobe2
    | some ex => tobe2 ++ ex
  let tobe4 : List String :=
    if no_child_obj then
      tobe3 ++ (d.map Prod.fst).filter (fun k => k.endsWith "_obj")
    else tobe3
  tobe4.foldl dictPop d

/-- A row of a two-column many-to-many association table. -/
structure AssocRow where
  parent : Nat
  child : Nat
deriving DecidableEq, Repr

/-- Embedding of `Base.update_many_to_many(table, parent_id_name,
child_id_name, parent_id_val, new_list, old_list=None)`.  The table
state is the list of association rows; the column names are fixed by
the `AssocRow` fields.  The method forms the python sets of the two
lists (a falsy `old_list`/`new_list`, i.e. `None` or the empty list,
gives the empty set), and when they differ deletes the rows of
`parent_id_val` whose child is in `old - new` and inserts a row
`(parent_id_val, c)` for each `c` in `new - old`. -/
def update_many_to_many (table : List AssocRow) (parent_id_val : Nat)
    (new_list : List Nat) (old_list : Option (List Nat) := none) : List AssocRow :=
  let old_set : Finset Nat := (old_list.getD []).toFinset
  let new_set : Finset Nat := new_list.toFinset
  if old_set ≠ new_set then
    let to_add : List Nat := new_list.dedup.filter (fun c => c ∉ old_set)
    let to_del : Finset Nat := old_set \ new_set
    let afterDel : List AssocRow :=
      if to_del ≠ ∅ then
        table.filter (fun r => ¬(r.parent = parent_id_val ∧ r.child ∈ to_del))
      else table
    if to_add ≠ [] then
      afterDel ++ to_add.map (fun c => ⟨parent_id_val, c⟩)
    else afterDel
  else table

/-- The status enum of `BaseResultORM.status`
(`RecordStatusEnum`, imported by the module). -/
inductive RecordStatusEnum where
  | incomplete
  | complete
  | error
deriving DecidableEq, Repr

/-- The status enum of `TaskQueueORM.status` and `ServiceQueueORM.status`
(`TaskStatusEnum`, imported by the module). -/
inductive TaskStatusEnum where
  | waiting
  | running
  | error
  | complete
deriving DecidableEq, Repr

/-- The recoverable error kinds of the storage layer named by the spec. -/
inductive DBError where
  | NotFound
  | Conflict
  | InvalidTransition
  | IntegrityViolation
deriving DecidableEq, Repr

/-- A column declaration of an association `Table`: its name, the target
of its `ForeignKey` (when any), and whether the foreign key carries
`ondelete="CASCADE"`. -/
structure ColumnDef where
  name : String
  fkTarget : Option String
  onDeleteCascade : Bool
deriving DecidableEq, Repr

/-- The columns of the `opt_result_association` table exactly as declared:
two foreign-key columns, both with `ondelete="CASCADE"` (the commented-out
`PrimaryKeyConstraint` is not part of the schema). -/
def opt_result_association : List ColumnDef :=
  [⟨"opt_id", some "optimization_procedure.id", true⟩,
   ⟨"result_id", some "result.id", true⟩]

/-- The columns of the `torj_opt_association` table exactly as declared:
two foreign-key columns, both with `ondelete="CASCADE"`. -/
def torj_opt_association : List ColumnDef :=
  [⟨"torj_id", some "torsiondrive_procedure.id", true⟩,
   ⟨"opt_id", some "optimization_procedure.id", true⟩]

/-- The columns of the `torj_init_mol_association` table exactly as
declared. -/
def torj_init_mol_association : List ColumnDef :=
  [⟨"torj_id", some "torsiondrive_procedure.id", true⟩,
   ⟨"molecule_id", some "molecule.id", true⟩]

/-- A `result` table row (`ResultORM`), restricted to its identifying
columns: the shared primary key and the six fields of the intended
deduplication tuple.  `program` lives on the joined `base_result` row in
the schema; it is inlined here as the dedup tuple refers to it. -/
structure ResultRow where
  id : Nat
  program : String
  driver : String
  method : String
  basis : String
  molecule : Nat
  keywords : Nat
deriving DecidableEq, Repr

/-- The intended deduplication key of a single result, the field list of
the commented-out unique index of `ResultORM`. -/
def dedupTuple (r : ResultRow) : String × String × String × String × Nat × Nat :=
  (r.program, r.driver, r.method, r.basis, r.molecule, r.keywords)

/-- The uniqueness constraints the declared `result` schema actually
enforces on its rows: only the primary key `id` is unique.  The unique
index over (program, driver, method, basis, molecule, keywords) appears
only inside a comment of `ResultORM` and is not part of the schema. -/
def resultSchemaValid (rows : List ResultRow) : Prop :=
  (rows.map ResultRow.id).Nodup

instance (rows : List ResultRow) : Decidable (resultSchemaValid rows) := by
  unfold resultSchemaValid; infer_instance

/-- Modelled from the spec: the base-result status transition rule.  The
inspected module only declares the `status` column
(`BaseResultORM.status`); the code enforcing transitions lives in the
storage-socket layer, outside the inspected source.  Per the spec,
`status` transitions only along `incomplete → complete` and
`incomplete → error`; any other attempted transition fails with
`InvalidTransition`. -/
def transition_status (old new : RecordStatusEnum) : Except DBError RecordStatusEnum :=
  match old, new with
  | .incomplete, .complete => .ok .complete
  | .incomplete, .error => .ok .error
  | _, _ => .error .InvalidTransition

/-- The mutable lifecycle fields of a `base_result` row: its status and
the two timestamps (times modelled as naturals). -/
structure BaseResultState where
  status : RecordStatusEnum
  created_on : Nat
  modified_on : Nat
deriving DecidableEq, Repr

/-- Modelled from the spec: row creation.  The column defaults of
`BaseResultORM` assign `status=incomplete` and stamp `created_on` and
`modified_on` with the current time. -/
def create_base_result (now : Nat) : BaseResultState :=
  { status := .incomplete, created_on := now, modified_on := now }

/-- Modelled from the spec: applying a status transition to a row.  The
update logic is not in the inspected module (its `save` override is
commented out); per the spec a successful transition updates `status`
and stamps `modified_on`, and never touches `created_on`. -/
def apply_transition (r : BaseResultState) (new : RecordStatusEnum) (now : Nat) :
    Except DBError BaseResultState :=
  match transition_status r.status new with
  | .ok st => .ok { r with status := st, modified_on := now }
  | .error e => .error e

/-- Run a list of attempted transitions (target status, time) against a
row; a rejected transition leaves the row unchanged. -/
def run_transitions (r : BaseResultState) : List (RecordStatusEnum × Nat) → BaseResultState
  | [] => r
  | (st, now) :: rest =>
    match apply_transition r st now with
    | .ok r2 => run_transitions r2 rest
    | .error _ => run_transitions r rest

/-- A `task_queue` row (`TaskQueueORM`), restricted to the fields the
1:1 invariant concerns: primary key, referenced base result, status. -/
structure TaskRow where
  id : Nat
  base_result : Nat
  status : TaskStatusEnum
deriving DecidableEq, Repr

/-- The uniqueness constraints the declared `task_queue` schema enforces:
`id` is the primary key and `base_result` is declared `unique=True`. -/
def taskSchemaValid (tasks : List TaskRow) : Prop :=
  (tasks.map TaskRow.id).Nodup ∧ (tasks.map TaskRow.base_result).Nodup

instance (tasks : List TaskRow) : Decidable (taskSchemaValid tasks) := by
  unfold taskSchemaValid; infer_instance

/-- Modelled from the spec: `enqueue(base_result_id, ...) -> task_id`.
The inspected module declares only the `task_queue` schema (with
`base_result` unique); the operation itself lives in the storage-socket
layer.  Per the spec, enqueue fails with `Conflict` when the base result
already has a live task, and otherwise inserts a fresh waiting row. -/
def enqueue (tasks : List TaskRow) (newid base_result_id : Nat) :
    Except DBError (List TaskRow) :=
  if tasks.any (fun t => t.base_result == base_result_id) then
    .error .Conflict
  else
    .ok (tasks ++ [⟨newid, base_result_id, .waiting⟩])

/-- Modelled from the spec: task resolution.  When the referenced base
result resolves, the task row is deleted (the spec allows delete or
archive; the row must not remain, since the schema's unique constraint
on `base_result` would otherwise block any later enqueue). -/
def resolveTask (tasks : List TaskRow) (tid : Nat) : List TaskRow :=
  tasks.filter (fun t => t.id ≠ tid)

/-- A `service_queue` row (`ServiceQueueORM`), restricted to the fields
deduplication concerns: primary key, status, `hash_index`, and the
referenced procedure. -/
structure ServiceRow where
  id : Nat
  status : TaskStatusEnum
  hash_index : String
  procedure_id : Nat
deriving DecidableEq, Repr

/-- A service-queue entry is active while not yet resolved. -/
def serviceActive (r : ServiceRow) : Bool :=
  r.status == .waiting || r.status == .running

/-- Modelled from the spec: service submission.  The inspected module
declares only the `service_queue` schema (with its `hash_index` column);
the submission path lives in the storage-socket layer.  Per the spec,
submitting a service request whose `hash_index` matches an active entry
does not create a second row; otherwise a fresh waiting entry is
inserted. -/
def add_service (rows : List ServiceRow) (newid : Nat) (h : String) (pid : Nat) :
    List ServiceRow :=
  if rows.any (fun r => serviceActive r && r.hash_index == h) then rows
  else rows ++ [⟨newid, .waiting, h, pid⟩]

/-- A `logs` row (`LogsORM`), the blob table backing stdout/stderr. -/
structure LogRow where
  id : Nat
  value : String
deriving DecidableEq, Repr

/-- An `error` row (`ErrorORM`), the blob table backing error details. -/
structure ErrorRow where
  id : Nat
  value : String
deriving DecidableEq, Repr

/-- A `base_result` row (`BaseResultORM`), restricted to the fields the
ownership model concerns: primary key and the three blob references. -/
structure BaseResultRow where
  id : Nat
  status : RecordStatusEnum
  stdout : Option Nat
  stderr : Option Nat
  error : Option Nat
deriving DecidableEq, Repr

/-- A `molecule` row (`MoleculeORM`), restricted to identity. -/
structure MoleculeRow where
  id : Nat
  molecule_hash : String
deriving DecidableEq, Repr

/-- A `keywords` row (`KeywordsORM`), restricted to identity. -/
structure KeywordsRow where
  id : Nat
  hash_index : String
deriving DecidableEq, Repr

/-- An `optimization_procedure` row, restricted to the fields deletion
concerns: the shared primary key and the two molecule references. -/
structure OptProcRow where
  id : Nat
  initial_molecule : Option Nat
  final_molecule : Option Nat
deriving DecidableEq, Repr

/-- A `torsiondrive_procedure` row, restricted to its shared primary
key. -/
structure TorsionRow where
  id : Nat
deriving DecidableEq, Repr

/-- The relational store declared by the module: one list of rows per
table.  Association rows are (parent id, child id) pairs of the tables
`opt_result_association`, `torj_opt_association` and
`torj_init_mol_association`. -/
structure Store where
  logs : List LogRow
  errors : List ErrorRow
  base_results : List BaseResultRow
  results : List ResultRow
  opt_procedures : List OptProcRow
  torsion_procedures : List TorsionRow
  molecules : List MoleculeRow
  keywords : List KeywordsRow
  opt_result_assoc : List AssocRow
  torj_opt_assoc : List AssocRow
  torj_init_mol_assoc : List AssocRow
deriving DecidableEq, Repr

/-- Deleting a `base_result` row, with the cascades the schema declares:
the `stdout_obj`/`stderr_obj`/`error_obj` relationships carry
`cascade="all, delete-orphan", single_parent=True`, so the blob rows the
row references are deleted with it; the subtype rows of `result`,
`optimization_procedure` and `torsiondrive_procedure` reference
`base_result.id` with `ondelete="CASCADE"` and follow; the association
rows referencing a deleted procedure or result row follow through the
`ondelete="CASCADE"` of their foreign keys.  `molecule` and `keywords`
rows are only referenced through plain foreign keys (no cascade from the
referencing side), so deletion never touches those tables. -/
def delete_base_result (s : Store) (bid : Nat) : Store :=
  match s.base_results.find? (fun b => b.id == bid) with
  | none => s
  | some b =>
    { s with
      base_results := s.base_results.filter (fun x => x.id ≠ bid)
      logs := s.logs.filter (fun l => some l.id ≠ b.stdout ∧ some l.id ≠ b.stderr)
      errors := s.errors.filter (fun e => some e.id ≠ b.error)
      results := s.results.filter (fun r => r.id ≠ bid)
      opt_procedures := s.opt_procedures.filter (fun p => p.id ≠ bid)
      torsion_procedures := s.torsion_procedures.filter (fun p => p.id ≠ bid)
      opt_result_assoc :=
        s.opt_result_assoc.filter (fun a => a.parent ≠ bid ∧ a.child ≠ bid)
      torj_opt_assoc :=
        s.torj_opt_assoc.filter (fun a => a.parent ≠ bid ∧ a.child ≠ bid)
      torj_init_mol_assoc :=
        s.torj_init_mol_assoc.filter (fun a => a.parent ≠ bid) }

/-- C1: an update via `update_many_to_many` writes exactly the symmetric
difference of the old and new membership sets: a row survives iff it was
in the table and is not a link of the given parent to a child in
`old - new`, or it is a link of the given parent to a child in
`new - old` (which is inserted); no other row is touched. -/
theorem update_many_to_many_symm_diff (table : List AssocRow) (p : Nat)
    (new_list : List Nat) (old_list : Option (List Nat)) (r : AssocRow) :
    r ∈ update_many_to_many table p new_list old_list ↔
      (r ∈ table ∧
        ¬(r.parent = p ∧ r.child ∈ (old_list.getD []).toFinset \ new_list.toFinset)) ∨
      (r.parent = p ∧ r.child ∈ new_list.toFinset \ (old_list.getD []).toFinset) := by
  unfold update_many_to_many
  by_cases hEq : (old_list.getD []).toFinset = new_list.toFinset
  · simp only [hEq, ne_eq, not_true_eq_false, if_false, Finset.sdiff_self,
      Finset.not_mem_empty, and_false, not_false_eq_true, and_true, or_false]
  · simp only [ne_eq, hEq, not_false_eq_true, if_true]
    by_cases hDel : (old_list.getD []).toFinset \ new_list.toFinset = ∅
    · have hkeep :
          (table.filter
            (fun r => ¬(r.parent = p ∧
              r.child ∈ (old_list.getD []).toFinset \ new_list.toFinset))) = table := by
        apply List.filter_eq_self.mpr
        intro a _
        simp [hDel]
      by_cases hAdd :
          (new_list.dedup.filter (fun c => c ∉ (old_list.getD []).toFinset)) = []
      · simp only [hDel, ne_eq, not_true_eq_false, if_false, hAdd, if_neg,
          not_false_eq_true]
        constructor
        · intro hmem
          exact Or.inl ⟨hmem, by simp [hDel]⟩
        · intro hmem
          rcases hmem with ⟨hmem, -⟩ | ⟨hp, hc⟩
          · exact hmem
          · exfalso
            rw [Finset.mem_sdiff, List.mem_toFinset] at hc
            have : r.child ∈ new_list.dedup.filter
                (fun c => c ∉ (old_list.getD []).toFinset) := by
              simp only [List.mem_filter, List.mem_dedup, decide_eq_true_eq]
              exact ⟨hc.1, by simpa using hc.2⟩
            rw [hAdd] at this
            exact List.not_mem_nil _ this
      · simp only [hDel, ne_eq, not_true_eq_false, if_false, hAdd, if_pos,
          not_false_eq_true, List.mem_append, List.mem_map, List.mem_filter,
          List.mem_dedup, decide_eq_true_eq]
        constructor
        · rintro (hmem | ⟨c, ⟨hcnew, hcold⟩, hrc⟩)
          · exact Or.inl ⟨hmem, by simp [hDel]⟩
          · refine Or.inr ⟨by rw [← hrc], ?_⟩
            rw [← hrc]
            simp only [Finset.mem_sdiff, List.mem_toFinset]
            exact ⟨hcnew, by simpa using hcold⟩
        · rintro (⟨hmem, -⟩ | ⟨hp, hc⟩)
          · exact Or.inl hmem
          · refine Or.inr ⟨r.child, ?_, ?_⟩
            · rw [Finset.mem_sdiff, List.mem_toFinset] at hc
              exact ⟨hc.1, by simpa using hc.2⟩
            · cases r
              simp only at hp
              simp [hp]
    · by_cases hAdd :
          (new_list.dedup.filter (fun c => c ∉ (old_list.getD []).toFinset)) = []
      · simp only [hDel, ne_eq, not_false_eq_true, if_true, hAdd, if_neg,
          not_true_eq_false, List.mem_filter, decide_eq_true_eq]
        constructor
        · intro hmem
          exact Or.inl ⟨hmem.1, by simpa using hmem.2⟩
        · rintro (⟨hmem, hkeep⟩ | ⟨hp, hc⟩)
          · exact ⟨hmem, by simpa using hkeep⟩
          · exfalso
            rw [Finset.mem_sdiff, List.mem_toFinset] at hc
            have : r.child ∈ new_list.dedup.filter
                (fun c => c ∉ (old_list.getD []).toFinset) := by
              simp only [List.mem_filter, List.mem_dedup, decide_eq_true_eq]
              exact ⟨hc.1, by simpa using hc.2⟩
            rw [hAdd] at this
            exact List.not_mem_nil _ this
      · simp only [hDel, ne_eq, not_false_eq_true, if_true, hAdd,
          List.mem_append, List.mem_filter, List.mem_map, List.mem_dedup,
          decide_eq_true_eq]
        constructor
        · rintro (⟨hmem, hkeep⟩ | ⟨c, ⟨hcnew, hcold⟩, hrc⟩)
          · exact Or.inl ⟨hmem, by simpa using hkeep⟩
          · refine Or.inr ⟨by rw [← hrc], ?_⟩
            rw [← hrc]
            simp only [Finset.mem_sdiff, List.mem_toFinset]
            exact ⟨hcnew, by simpa using hcold⟩
        · rintro (⟨hmem, hkeep⟩ | ⟨hp, hc⟩)
          · exact Or.inl ⟨hmem, by simpa using hkeep⟩
          · refine Or.inr ⟨r.child, ?_, ?_⟩
            · rw [Finset.mem_sdiff, List.mem_toFinset] at hc
              exact ⟨hc.1, by simpa using hc.2⟩
            · cases r
              simp only at hp
              simp [hp]

/-- C9: `update_many_to_many` is a no-op on the association table
whenever the new membership list denotes the same set as the old one
(lists differing only in order or duplication included): no row is
deleted and none inserted. -/
theorem update_many_to_many_noop (table : List AssocRow) (p : Nat)
    (new_list : List Nat) (old_list : Option (List Nat))
    (h : (old_list.getD []).toFinset = new_list.toFinset) :
    update_many_to_many table p new_list old_list = table := by
  unfold update_many_to_many
  simp [h]

/-- Witness for C9 at a concrete input: old list `[2, 3]` and new list
`[3, 2, 3]` denote the same set, so the table `[(1, 2)]` is returned
unchanged. -/
theorem update_many_to_many_noop_witness :
    ((some [2, 3] : Option (List Nat)).getD []).toFinset = [3, 2, 3].toFinset ∧
      update_many_to_many [⟨1, 2⟩] 1 [3, 2, 3] (some [2, 3]) = [⟨1, 2⟩] :=
  ⟨by decide, update_many_to_many_noop [⟨1, 2⟩] 1 [3, 2, 3] (some [2, 3]) (by decide)⟩

/-- Popping a list of keys from an attribute dictionary keeps exactly
the bindings whose key is not in the list. -/
theorem foldl_dictPop {V : Type} (keys : List String) (d : List (String × V)) :
    keys.foldl dictPop d = d.filter (fun p => decide (p.1 ∉ keys)) := by
  induction keys generalizing d with
  | nil =>
    rw [List.foldl_nil]
    exact (List.filter_eq_self.mpr (fun a _ => by simp)).symm
  | cons k ks ih =>
    rw [List.foldl_cons, ih]
    unfold dictPop
    rw [List.filter_filter]
    apply List.filter_congr
    intro p _
    simp [List.mem_cons, not_or, Bool.and_comm]

/-- Membership in the result of popping the given extra keys together
with all keys of the dictionary ending in `_obj`. -/
theorem mem_to_dict_aux {V : Type} (d : List (String × V)) (extra : List String)
    (kv : String × V) :
    kv ∈ (extra ++ (d.map Prod.fst).filter (fun k => k.endsWith "_obj")).foldl
        dictPop d ↔
      kv ∈ d ∧ kv.1 ∉ extra ∧ kv.1.endsWith "_obj" = false := by
  rw [foldl_dictPop, List.mem_filter]
  simp only [decide_eq_true_eq, List.mem_append, List.mem_filter, List.mem_map,
    not_or, not_and]
  constructor
  · rintro ⟨hd, hextra, hno⟩
    refine ⟨hd, hextra, ?_⟩
    cases hend : kv.1.endsWith "_obj" with
    | false => rfl
    | true => exact absurd hend (hno ⟨kv, hd, rfl⟩)
  · rintro ⟨hd, hextra, hend⟩
    exact ⟨hd, hextra, fun _ => by simp [hend]⟩

/-- C10: `to_dict` with default arguments returns the attribute
dictionary with the keys `_sa_instance_state` and `result_type` and
every key ending in `_obj` removed, and with `with_id=False` the key
`id` removed as well; every other binding is returned unchanged. -/
theorem to_dict_strips_db_fields {V : Type} (d : List (String × V)) (kv : String × V) :
    (kv ∈ to_dict d ↔
      kv ∈ d ∧ kv.1 ≠ "_sa_instance_state" ∧ kv.1 ≠ "result_type" ∧
        kv.1.endsWith "_obj" = false) ∧
    (kv ∈ to_dict d false ↔
      kv ∈ d ∧ kv.1 ≠ "_sa_instance_state" ∧ kv.1 ≠ "result_type" ∧ kv.1 ≠ "id" ∧
        kv.1.endsWith "_obj" = false) := by
  have e1 : to_dict d =
      (["_sa_instance_state", "result_type"] ++
        (d.map Prod.fst).filter (fun k => k.endsWith "_obj")).foldl dictPop d := by
    unfold to_dict db_related_fields
    rfl
  have e2 : to_dict d false =
      (["_sa_instance_state", "result_type", "id"] ++
        (d.map Prod.fst).filter (fun k => k.endsWith "_obj")).foldl dictPop d := by
    unfold to_dict db_related_fields
    rfl
  rw [e1, e2, mem_to_dict_aux, mem_to_dict_aux]
  simp only [List.mem_cons, List.not_mem_nil, not_or, or_false, and_assoc]
  exact ⟨trivial, trivial⟩

/-- C3: the base-result status machine moves only along
`incomplete → complete` and `incomplete → error`: every accepted
transition starts from `incomplete` and targets a terminal state, and
any attempted transition out of `complete` or `error` (in particular
`complete → incomplete`) fails with `InvalidTransition`. -/
theorem base_result_status_edges (old new st : RecordStatusEnum) :
    (transition_status old new = .ok st →
      old = .incomplete ∧ st = new ∧ (new = .complete ∨ new = .error)) ∧
    ((old = .complete ∨ old = .error) →
      transition_status old new = .error .InvalidTransition) := by
  cases old <;> cases new <;> simp [transition_status] <;> intro h <;> simp [h]

/-- Witness for C3 at a concrete input: the attempted transition
`complete → incomplete` fails with `InvalidTransition`. -/
theorem base_result_status_edges_witness :
    transition_status .complete .incomplete = .error .InvalidTransition :=
  (base_result_status_edges .complete .incomplete .incomplete).2 (Or.inl rfl)

/-- A successful `apply_transition` stamps `modified_on` with the
transition time and leaves `created_on` untouched. -/
theorem apply_transition_ok {r : BaseResultState} {st : RecordStatusEnum}
    {now : Nat} {r2 : BaseResultState} (h : apply_transition r st now = .ok r2) :
    r2.modified_on = now ∧ r2.created_on = r.created_on := by
  unfold apply_transition at h
  cases htr : transition_status r.status st with
  | ok s =>
    rw [htr] at h
    cases h
    exact ⟨rfl, rfl⟩
  | error e =>
    rw [htr] at h
    cases h

/-- Any sequence of attempted transitions preserves `created_on`. -/
theorem run_transitions_created_on (r : BaseResultState)
    (evs : List (RecordStatusEnum × Nat)) :
    (run_transitions r evs).created_on = r.created_on := by
  induction evs generalizing r with
  | nil => rfl
  | cons e rest ih =>
    obtain ⟨st, now⟩ := e
    unfold run_transitions
    cases h : apply_transition r st now with
    | ok r2 => rw [ih r2, (apply_transition_ok h).2]
    | error e2 => exact ih r

/-- C8: `modified_on` is stamped on every successful status transition,
while `created_on` is assigned at row creation and never overwritten by
any later sequence of attempted transitions. -/
theorem base_result_timestamps :
    (∀ t0 evs, (run_transitions (create_base_result t0) evs).created_on = t0) ∧
    (∀ r st now r2, apply_transition r st now = .ok r2 →
      r2.modified_on = now ∧ r2.created_on = r.created_on) :=
  ⟨fun t0 evs => (run_transitions_created_on (create_base_result t0) evs).trans rfl,
   fun _ _ _ _ h => apply_transition_ok h⟩

/-- Witness for C8 at a concrete input: a row created at time 3 and
completed at time 7 reports `modified_on = 7` and keeps
`created_on = 3`. -/
theorem base_result_timestamps_witness :
    apply_transition ⟨.incomplete, 3, 3⟩ .complete 7 = .ok ⟨.complete, 3, 7⟩ ∧
      ((⟨.complete, 3, 7⟩ : BaseResultState).modified_on = 7 ∧
        (⟨.complete, 3, 7⟩ : BaseResultState).created_on =
          (⟨.incomplete, 3, 3⟩ : BaseResultState).created_on) :=
  ⟨rfl, base_result_timestamps.2 ⟨.incomplete, 3, 3⟩ .complete 7 ⟨.complete, 3, 7⟩ rfl⟩

/-- C4: at most one task row may reference a base result at a time:
while any task row for the base result exists, `enqueue` fails with
`Conflict`; once that task is resolved (its row deleted) a new enqueue
on the same base result succeeds, provided the table satisfies its
declared unique constraints. -/
theorem enqueue_one_to_one (tasks : List TaskRow) (t : TaskRow)
    (newid newid2 : Nat) (hmem : t ∈ tasks) :
    enqueue tasks newid t.base_result = .error .Conflict ∧
      (taskSchemaValid tasks →
        enqueue (resolveTask tasks t.id) newid2 t.base_result =
          .ok (resolveTask tasks t.id ++ [⟨newid2, t.base_result, .waiting⟩])) := by
  constructor
  · unfold enqueue
    rw [if_pos]
    rw [List.any_eq_true]
    exact ⟨t, hmem, by simp⟩
  · intro hvalid
    unfold enqueue
    rw [if_neg]
    rw [List.any_eq_true]
    rintro ⟨u, humem, hubr⟩
    unfold resolveTask at humem
    rw [List.mem_filter] at humem
    obtain ⟨humem, huid⟩ := humem
    simp only [decide_eq_true_eq] at huid hubr
    have hut : u = t :=
      List.inj_on_of_nodup_map hvalid.2 humem hmem (by simpa using hubr)
    exact huid (by rw [hut])

/-- Witness for C4 at a concrete input: with one task (id 1) referencing
base result 5, a second enqueue conflicts; after resolving task 1 the
enqueue succeeds. -/
theorem enqueue_one_to_one_witness :
    (⟨1, 5, .waiting⟩ : TaskRow) ∈ [(⟨1, 5, .waiting⟩ : TaskRow)] ∧
      taskSchemaValid [(⟨1, 5, .waiting⟩ : TaskRow)] ∧
      enqueue [(⟨1, 5, .waiting⟩ : TaskRow)] 2 5 = .error .Conflict ∧
      enqueue (resolveTask [(⟨1, 5, .waiting⟩ : TaskRow)] 1) 3 5 =
        .ok (resolveTask [(⟨1, 5, .waiting⟩ : TaskRow)] 1 ++ [⟨3, 5, .waiting⟩]) :=
  ⟨List.mem_singleton.mpr rfl, by decide,
    (enqueue_one_to_one [⟨1, 5, .waiting⟩] ⟨1, 5, .waiting⟩ 2 3
      (List.mem_singleton.mpr rfl)).1,
    (enqueue_one_to_one [⟨1, 5, .waiting⟩] ⟨1, 5, .waiting⟩ 2 3
      (List.mem_singleton.mpr rfl)).2 (by decide)⟩

/-- C7: while a service-queue entry with a given `hash_index` is active,
submitting an identical service request leaves the table unchanged: no
second row is created. -/
theorem add_service_dedup (rows : List ServiceRow) (r : ServiceRow)
    (newid pid : Nat) (hmem : r ∈ rows) (hact : serviceActive r = true) :
    add_service rows newid r.hash_index pid = rows := by
  unfold add_service
  rw [if_pos]
  rw [List.any_eq_true]
  exact ⟨r, hmem, by simp [hact]⟩

/-- Witness for C7 at a concrete input: an active (waiting) entry with
hash index `abc` blocks a second submission with the same hash index. -/
theorem add_service_dedup_witness :
    (⟨1, .waiting, "abc", 7⟩ : ServiceRow) ∈ [(⟨1, .waiting, "abc", 7⟩ : ServiceRow)] ∧
      serviceActive ⟨1, .waiting, "abc", 7⟩ = true ∧
      add_service [(⟨1, .waiting, "abc", 7⟩ : ServiceRow)] 2 "abc" 9 =
        [(⟨1, .waiting, "abc", 7⟩ : ServiceRow)] :=
  ⟨List.mem_singleton.mpr rfl, rfl,
    add_service_dedup [⟨1, .waiting, "abc", 7⟩] ⟨1, .waiting, "abc", 7⟩ 2 9
      (List.mem_singleton.mpr rfl) rfl⟩

/-- The first of two single-result rows sharing the intended
deduplication tuple. -/
def dupResultA : ResultRow := ⟨1, "psi4", "energy", "hf", "sto-3g", 1, 1⟩

/-- The second of two single-result rows sharing the intended
deduplication tuple. -/
def dupResultB : ResultRow := ⟨2, "psi4", "energy", "hf", "sto-3g", 1, 1⟩

/-- C5: the declared `result` schema accepts two distinct rows that
agree on the whole tuple (program, driver, method, basis, molecule,
keywords): the unique index over that tuple exists only in a comment of
`ResultORM`, so the schema itself does not enforce the intended
deduplication invariant. -/
theorem result_schema_accepts_duplicate_tuple :
    resultSchemaValid [dupResultA, dupResultB] ∧ dupResultA ≠ dupResultB ∧
      dedupTuple dupResultA = dedupTuple dupResultB := by
  refine ⟨by decide, ?_, rfl⟩
  intro h
  have : dupResultA.id = dupResultB.id := by rw [h]
  simp [dupResultA, dupResultB] at this

/-- C2 counterexample: the two ordered association tables
(`opt_result_association`, `torj_opt_association`) have exactly their
two foreign-key columns and no further column, so neither carries a
sequence-position column in addition to the two foreign keys. -/
theorem ordered_assoc_only_two_columns :
    opt_result_association.map ColumnDef.name = ["opt_id", "result_id"] ∧
      torj_opt_association.map ColumnDef.name = ["torj_id", "opt_id"] ∧
      ¬2 < opt_result_association.length ∧ ¬2 < torj_opt_association.length := by
  decide

/-- C2 amended: each ordered association table consists of exactly two
columns, each of them a foreign key; no explicit sequence-position
column is declared, so readers reconstruct the child sequence from
join-table row order. -/
theorem ordered_assoc_columns_are_fks :
    (∀ c ∈ opt_result_association, c.fkTarget.isSome = true) ∧
      opt_result_association.length = 2 ∧
      (∀ c ∈ torj_opt_association, c.fkTarget.isSome = true) ∧
      torj_opt_association.length = 2 := by
  decide

/-- C6: deleting a base-result row deletes its owned stdout/stderr/error
blob rows; deleting a procedure row removes its association rows to
children, while the child result and optimization rows (other base
results) and the shared molecule and keyword rows are untouched. -/
theorem delete_base_result_frame (s : Store) (b : BaseResultRow)
    (hfind : s.base_results.find? (fun x => x.id == b.id) = some b) :
    (∀ l ∈ s.logs, (some l.id = b.stdout ∨ some l.id = b.stderr) →
        l ∉ (delete_base_result s b.id).logs) ∧
      (∀ e ∈ s.errors, some e.id = b.error →
        e ∉ (delete_base_result s b.id).errors) ∧
      (∀ a ∈ s.opt_result_assoc, a.parent = b.id →
        a ∉ (delete_base_result s b.id).opt_result_assoc) ∧
      (∀ a ∈ s.torj_opt_assoc, a.parent = b.id →
        a ∉ (delete_base_result s b.id).torj_opt_assoc) ∧
      (∀ r ∈ s.results, r.id ≠ b.id → r ∈ (delete_base_result s b.id).results) ∧
      (∀ p ∈ s.opt_procedures, p.id ≠ b.id →
        p ∈ (delete_base_result s b.id).opt_procedures) ∧
      (delete_base_result s b.id).molecules = s.molecules ∧
      (delete_base_result s b.id).keywords = s.keywords := by
  unfold delete_base_result
  rw [hfind]
  refine ⟨?_, ?_, ?_, ?_, ?_, ?_, rfl, rfl⟩
  · intro l _ hor h2
    rw [List.mem_filter] at h2
    simp only [decide_eq_true_eq] at h2
    rcases hor with h | h
    · exact h2.2.1 h
    · exact h2.2.2 h
  · intro e _ h h2
    rw [List.mem_filter] at h2
    simp only [decide_eq_true_eq] at h2
    exact h2.2 h
  · intro a _ h h2
    rw [List.mem_filter] at h2
    simp only [decide_eq_true_eq] at h2
    exact h2.2.1 h
  · intro a _ h h2
    rw [List.mem_filter] at h2
    simp only [decide_eq_true_eq] at h2
    exact h2.2.1 h
  · intro r hr hne
    rw [List.mem_filter]
    simp only [decide_eq_true_eq]
    exact ⟨hr, hne⟩
  · intro p hp hne
    rw [List.mem_filter]
    simp only [decide_eq_true_eq]
    exact ⟨hp, hne⟩

/-- A concrete store: base result 1 is an optimization procedure owning
blob rows 10, 11 and 20, linked to child result 2 (base result 2), which
references molecule 5 and keyword set 7. -/
def demoStore : Store where
  logs := [⟨10, "out"⟩, ⟨11, "err"⟩, ⟨12, "other"⟩]
  errors := [⟨20, "boom"⟩]
  base_results := [⟨1, .complete, some 10, some 11, some 20⟩,
    ⟨2, .complete, none, none, none⟩]
  results := [⟨2, "psi4", "gradient", "hf", "sto-3g", 5, 7⟩]
  opt_procedures := [⟨1, some 5, some 5⟩]
  torsion_procedures := []
  molecules := [⟨5, "mh"⟩]
  keywords := [⟨7, "kh"⟩]
  opt_result_assoc := [⟨1, 2⟩]
  torj_opt_assoc := []
  torj_init_mol_assoc := []

/-- Witness for C6 at a concrete input: deleting procedure 1 from the
demo store removes its stdout blob and its association row, while the
child result row and the molecule and keyword tables survive. -/
theorem delete_base_result_frame_witness :
    (⟨10, "out"⟩ : LogRow) ∉ (delete_base_result demoStore 1).logs ∧
      (⟨1, 2⟩ : AssocRow) ∉ (delete_base_result demoStore 1).opt_result_assoc ∧
      (⟨2, "psi4", "gradient", "hf", "sto-3g", 5, 7⟩ : ResultRow) ∈
        (delete_base_result demoStore 1).results ∧
      (delete_base_result demoStore 1).molecules = demoStore.molecules ∧
      (delete_base_result demoStore 1).keywords = demoStore.keywords :=
  ⟨(delete_base_result_frame demoStore ⟨1, .complete, some 10, some 11, some 20⟩
      rfl).1 ⟨10, "out"⟩ (by simp [demoStore]) (Or.inl rfl),
   (delete_base_result_frame demoStore ⟨1, .complete, some 10, some 11, some 20⟩
      rfl).2.2.1 ⟨1, 2⟩ (by simp [demoStore]) rfl,
   (delete_base_result_frame demoStore ⟨1, .complete, some 10, some 11, some 20⟩
      rfl).2.2.2.2.1 ⟨2, "psi4", "gradient", "hf", "sto-3g", 5, 7⟩
      (by simp [demoStore]) (by decide),
   (delete_base_result_frame demoStore ⟨1, .complete, some 10, some 11, some 20⟩
      rfl).2.2.2.2.2.2.1,
   (delete_base_result_frame demoStore ⟨1, .complete, some 10, some 11, some 20⟩
      rfl).2.2.2.2.2.2.2⟩

end QCFractal
